import Mathlib

/-!
Verification development for the battery-logger web application
(10-byte packet decoder, stability/averaging state machine, reading log,
CSV export/import).  The definitions below are shallow embeddings of the
TypeScript/JavaScript source: `processPacket`/`processData` decode packets,
`updateReadings`, `checkStability`, `recordReading` and the cell-completion
effect mirror the hook `useBatteryLogger`, and `exportToCSV`/`importFromCSV`
model the CSV persistence layer.  JS numbers carried by samples are modelled
as rationals; the "OL" sentinel is a separate constructor.
-/

namespace BatteryLogger

/-- A measured quantity as the JS code passes it around: either a finite
number or the string sentinel "OL" (over limit). -/
inductive Meas where
  | num (q : ℚ)
  | ol
deriving DecidableEq, Repr

/-- Mirrors the JS dynamic test `typeof x === "number"`. -/
def Meas.isNum : Meas → Bool
  | .num _ => true
  | .ol => false

/-- The numeric payload of a measurement (meaningful only when `isNum`). -/
def Meas.val : Meas → ℚ
  | .num q => q
  | .ol => 0

/-- The decoded content of one 10-byte packet as produced by
`processPacket` / the decoding prefix of `processData`. -/
structure DecodedSample where
  voltage : Meas
  resistance : Meas
  rUnit : String
deriving DecidableEq, Repr

/-- The 24-bit little-endian combination
`(b0 & 0xff) | ((b1 & 0xff) << 8) | ((b2 & 0xff) << 16)` used by the decoder
for both display-byte triplets. -/
def le24 (b0 b1 b2 : Nat) : Nat :=
  (b0 &&& 0xff) ||| ((b1 &&& 0xff) <<< 8) ||| ((b2 &&& 0xff) <<< 16)

/-- Decoder for one 10-byte packet (useBatteryLogger.ts lines 194-221,
identical to `processPacket` in the standalone script).  The packet is given
as the list of its byte values; out-of-range reads default to 0, matching a
typed array only in that the callers always supply 10 bytes. -/
def processPacket (packet : List Nat) : DecodedSample :=
  let statusDisp := packet.getD 0 0
  let rDisp1 := packet.getD 2 0
  let rDisp2 := packet.getD 3 0
  let rDisp3 := packet.getD 4 0
  let signCode := packet.getD 5 0
  let vDisp1 := packet.getD 7 0
  let vDisp2 := packet.getD 8 0
  let vDisp3 := packet.getD 9 0
  let rDispCode := (statusDisp &&& 0xf0) >>> 4
  let rMag : ℚ := (le24 rDisp1 rDisp2 rDisp3 : ℚ) / 10000
  let rState : String × Meas :=
    if rDispCode = 0x05 then ("mΩ", Meas.num rMag)
    else if rDispCode = 0x06 then ("mΩ", Meas.ol)
    else if rDispCode = 0x09 then ("Ω", Meas.num rMag)
    else if rDispCode = 0x0a then ("Ω", Meas.ol)
    else ("mΩ", Meas.num rMag)
  let vDispCode := statusDisp &&& 0x0f
  let vMag : ℚ := (le24 vDisp1 vDisp2 vDisp3 : ℚ) / 10000
  let vSigned : ℚ := (if signCode = 1 then 1 else -1) * vMag
  let voltage := if vDispCode = 0x08 then Meas.ol else Meas.num vSigned
  { voltage := voltage, resistance := rState.2, rUnit := rState.1 }

set_option maxRecDepth 8192 in
theorem nibble_split : ∀ x < 256, (x &&& 0xf0) >>> 4 = x / 16 ∧ x &&& 0x0f = x % 16 := by
  decide

set_option maxRecDepth 8192 in
theorem byte_and_ff : ∀ x < 256, x &&& 0xff = x := by
  decide

theorem le24_eq_arith {a b c : Nat} (ha : a < 256) (hb : b < 256) (hc : c < 256) :
    le24 a b c = a + 256 * b + 65536 * c := by
  unfold le24
  rw [byte_and_ff a ha, byte_and_ff b hb, byte_and_ff c hc,
      Nat.shiftLeft_eq, Nat.shiftLeft_eq, Nat.lor_assoc]
  have h1 : b * 2 ^ 8 ||| c * 2 ^ 16 = b * 2 ^ 8 + c * 2 ^ 16 := by
    have hc16 : c * 2 ^ 16 = 2 ^ 16 * c := Nat.mul_comm _ _
    have hb16 : b * 2 ^ 8 < 2 ^ 16 := by omega
    rw [Nat.lor_comm, hc16, ← Nat.mul_add_lt_is_or hb16 c]
    omega
  have h2 : a ||| (b * 2 ^ 8 + c * 2 ^ 16) = a + (b * 2 ^ 8 + c * 2 ^ 16) := by
    have hsum : b * 2 ^ 8 + c * 2 ^ 16 = 2 ^ 8 * (b + 256 * c) := by ring
    rw [Nat.lor_comm, hsum, ← Nat.mul_add_lt_is_or (by omega : a < 2 ^ 8) (b + 256 * c)]
    omega
  rw [h1, h2]
  omega

/-- C1: for every 10-byte packet, the resistance display code is the high
nibble of byte 0 and the voltage display code the low nibble; each magnitude
is the 24-bit little-endian value of its three display bytes divided by
10000; the resistance is the over-limit sentinel exactly for codes 0x06 and
0x0a, is reported in ohm exactly for codes 0x09 and 0x0a and in milliohm
otherwise (including every unrecognized code); the voltage magnitude is
multiplied by +1 when byte 5 equals 1 and by -1 otherwise, and is the
over-limit sentinel exactly when the voltage display code is 0x08. -/
theorem C1_decoder_fields (b : List Nat) (hlen : b.length = 10)
    (hb : ∀ x ∈ b, x < 256) :
    processPacket b =
      { voltage :=
          if b.getD 0 0 % 16 = 0x08 then Meas.ol
          else Meas.num ((if b.getD 5 0 = 1 then (1 : ℚ) else -1) *
            ((b.getD 7 0 + 256 * b.getD 8 0 + 65536 * b.getD 9 0 : ℕ) / 10000 : ℚ)),
        resistance :=
          if b.getD 0 0 / 16 = 0x06 ∨ b.getD 0 0 / 16 = 0x0a then Meas.ol
          else Meas.num
            ((b.getD 2 0 + 256 * b.getD 3 0 + 65536 * b.getD 4 0 : ℕ) / 10000 : ℚ),
        rUnit := if b.getD 0 0 / 16 = 0x09 ∨ b.getD 0 0 / 16 = 0x0a then "Ω" else "mΩ" } := by
  have hmem : ∀ i : Nat, i < 10 → b.getD i 0 < 256 := by
    intro i hi
    have hi' : i < b.length := by omega
    rw [List.getD_eq_getElem b 0 hi']
    exact hb _ (List.getElem_mem hi')
  have h0 := hmem 0 (by omega)
  have h2 := hmem 2 (by omega)
  have h3 := hmem 3 (by omega)
  have h4 := hmem 4 (by omega)
  have h7 := hmem 7 (by omega)
  have h8 := hmem 8 (by omega)
  have h9 := hmem 9 (by omega)
  simp only [processPacket]
  rw [(nibble_split _ h0).1, (nibble_split _ h0).2,
      le24_eq_arith h2 h3 h4, le24_eq_arith h7 h8 h9]
  split_ifs <;> first | rfl | omega

theorem bits59hi : ((0x59 : ℕ) &&& 0xf0) >>> 4 = 5 := by decide

theorem bits59lo : (0x59 : ℕ) &&& 0x0f = 9 := by decide

theorem le24_100 : le24 100 0 0 = 100 := by decide

theorem le24_244 : le24 244 0 0 = 244 := by decide

theorem le24_500 : le24 0xf4 0x01 0 = 500 := by decide

/-- C5 (counterexample): the packet literal `[0x59,0,100,0,0,1,0,500,0,0]`
contains the value 500, which is not a byte; a `Uint8Array` stores it as
500 mod 256 = 244, so the decoded voltage is 0.0244, not the 0.05 the claim
computes from 500/10000. -/
theorem C5_packet_literal_counterexample :
    processPacket ([0x59, 0, 100, 0, 0, 1, 0, 500 % 256, 0, 0] : List Nat) ≠
      { voltage := Meas.num (500 / 10000), resistance := Meas.num (100 / 10000),
        rUnit := "mΩ" } ∧
    (processPacket ([0x59, 0, 100, 0, 0, 1, 0, 500 % 256, 0, 0] : List Nat)).voltage =
      Meas.num (244 / 10000) := by
  have hv : (processPacket ([0x59, 0, 100, 0, 0, 1, 0, 500 % 256, 0, 0] :
      List Nat)).voltage = Meas.num (244 / 10000) := by
    simp only [processPacket, List.getD_cons_zero, List.getD_cons_succ,
      Nat.reduceMod, bits59lo, le24_244]
    norm_num
  refine ⟨fun h => ?_, hv⟩
  rw [h] at hv
  simp only [Meas.num.injEq] at hv
  norm_num at hv

/-- C5 (amended): with the 24-bit magnitude 500 encoded in actual bytes
(0xf4, 0x01, 0x00), the packet decodes to voltage 0.05 V, resistance
0.01 milliohm-units, unit milliohm. -/
theorem C5_single_decode :
    processPacket ([0x59, 0, 100, 0, 0, 1, 0, 0xf4, 0x01, 0] : List Nat) =
      { voltage := Meas.num (5 / 100), resistance := Meas.num (1 / 100),
        rUnit := "mΩ" } := by
  simp only [processPacket, List.getD_cons_zero, List.getD_cons_succ,
    bits59lo, bits59hi, le24_100, le24_500]
  norm_num [DecodedSample.mk.injEq]

/-! State machine of the hook `useBatteryLogger`: readings log, averaging
buffer, stability tracking and probe lifecycle.  React state setters and
refs are collapsed into one record; display-only effects (current-value
spans, progress bar DOM) are kept only where the claims mention them
(`stabilityText`, `stabilityProgress`, `isWaiting`). -/

/-- One finalized per-cell reading (interface `Reading`).  JS stores
`cellNum` as a number; imported rows can carry `NaN` (`parseInt` failure),
modelled as `none`. -/
structure Reading where
  cellNum : Option ℤ
  cellType : String
  voltage : String
  resistance : String
  rUnit : String
  timestamp : String
deriving DecidableEq, Repr

/-- One buffered sample of the averaging buffer (interface
`CurrentReading`). -/
structure CurrentReading where
  voltage : ℚ
  resistance : ℚ
  rUnit : String
deriving DecidableEq, Repr

/-- The settings consumed by the state machine. -/
structure Config where
  averaging : Bool
  numReadings : Nat
  cellType : String
  customCellType : String
deriving DecidableEq, Repr

/-- The mutable state of `useBatteryLogger` (React state + refs). -/
structure LoggerState where
  readings : List Reading
  cellNum : ℤ
  currentReadings : List CurrentReading
  stableCount : Nat
  prevVoltage : Option ℚ
  prevResistance : Option ℚ
  prevRUnit : Option String
  isReadingInProgress : Bool
  waitingForProbeRemoval : Bool
  lastReadingTime : ℤ
  stabilityProgress : ℚ
  isWaiting : Bool
  stabilityText : String
deriving DecidableEq, Repr

def REQUIRED_STABLE : Nat := 10

def EPSILON_RESISTANCE : ℚ := 2 / 1000

def EPSILON_VOLTAGE : ℚ := 1 / 100

def COOLDOWN_PERIOD : ℤ := 3000

def PROBE_REMOVAL_THRESHOLD : ℚ := 1 / 10

/-- JS strict equality `===` between the numbers stored in `cellNum`
fields: `NaN === x` is false for every x, including NaN itself. -/
def jsNumEq : Option ℤ → Option ℤ → Bool
  | some a, some b => a == b
  | _, _ => false

/-- The effective cell-type label (`getEffectiveCellType`): the custom text
(trimmed) when "custom" is selected, falling back to the literal "Custom"
when that text is blank. -/
def getEffectiveCellType (cfg : Config) : String :=
  if cfg.cellType = "custom" then
    (if cfg.customCellType.trim = "" then "Custom" else cfg.customCellType.trim)
  else cfg.cellType

/-- The target size of the averaging buffer: the configured reading count
when averaging is enabled, else 1. -/
def targetReadings (cfg : Config) : Nat :=
  if cfg.averaging then cfg.numReadings else 1

/-- The decimal digit character for a value below ten. -/
def digitChar (d : Nat) : Char :=
  if d = 0 then '0' else if d = 1 then '1' else if d = 2 then '2'
  else if d = 3 then '3' else if d = 4 then '4' else if d = 5 then '5'
  else if d = 6 then '6' else if d = 7 then '7' else if d = 8 then '8' else '9'

/-- Digit characters of a natural number, most significant first (decimal
printing used by JS number-to-string on integers). -/
def natToDigits (n : Nat) : List Char :=
  if h : n < 10 then [digitChar n]
  else natToDigits (n / 10) ++ [digitChar (n % 10)]
decreasing_by exact Nat.div_lt_self (by omega) (by omega)

/-- JS number-to-string for the values a `cellNum` field can hold. -/
def jsNumToString : Option ℤ → String
  | none => "NaN"
  | some i =>
      if i < 0 then String.mk ('-' :: natToDigits i.natAbs)
      else String.mk (natToDigits i.natAbs)

/-- Zero-padded 4-digit rendering of `k < 10000`, for the fractional part
of `toFixed(4)`. -/
def pad4 (k : Nat) : String :=
  let d := natToDigits k
  String.mk (List.replicate (4 - d.length) '0' ++ d)

/-- Model of `Number.prototype.toFixed(4)` on exact rationals: sign,
then the magnitude rounded to the nearest 1/10000 (ties away from zero),
rendered with exactly four digits after the point. -/
def toFixed4 (x : ℚ) : String :=
  let n := (⌊|x| * 10000 + 1 / 2⌋).toNat
  (if x < 0 then "-" else "") ++
    String.mk (natToDigits (n / 10000)) ++ "." ++ pad4 (n % 10000)

/-- Validity of a decoded sample for stability/averaging
(`isValid` in `processData`): both quantities numeric and voltage
positive. -/
def isValidSample (voltage resistance : Meas) : Prop :=
  voltage.isNum = true ∧ resistance.isNum = true ∧ 0 < voltage.val

instance (v r : Meas) : Decidable (isValidSample v r) := by
  unfold isValidSample
  infer_instance

/-- Stability check (`checkStability`): compares the sample with the stored
previous one, always overwrites the previous values, and reports not-stable
when no previous sample exists. -/
def checkStability (st : LoggerState) (voltage resistance : ℚ) (rUnit : String) :
    LoggerState × Bool :=
  match st.prevVoltage, st.prevResistance with
  | some pv, some pr =>
      let voltageStable := decide (|voltage - pv| < EPSILON_VOLTAGE)
      let resistanceStable := decide (|resistance - pr| < EPSILON_RESISTANCE)
      let unitsMatch := st.prevRUnit == some rUnit
      ({ st with prevVoltage := some voltage, prevResistance := some resistance,
                 prevRUnit := some rUnit },
       voltageStable && resistanceStable && unitsMatch)
  | _, _ =>
      ({ st with prevVoltage := some voltage, prevResistance := some resistance,
                 prevRUnit := some rUnit }, false)

/-- Buffer append on a confirmed stable run (`recordReading`): guarded by
the probe-removal flag and the buffer capacity, then flips the tracker to
awaiting-probe-removal. -/
def recordReading (cfg : Config) (st : LoggerState)
    (voltage resistance : ℚ) (rUnit : String) : LoggerState :=
  if st.waitingForProbeRemoval = true then st
  else
    let buf :=
      if st.currentReadings.length ≥ targetReadings cfg then st.currentReadings
      else st.currentReadings ++ [⟨voltage, resistance, rUnit⟩]
    { st with currentReadings := buf,
              stabilityText := "Remove probes before next reading",
              waitingForProbeRemoval := true }

/-- One decoded sample through the gating/stability part of `processData`
(lines 226-306 of useBatteryLogger.ts; `updateReadings` in the standalone
script).  The no-signal timeout only schedules a deferred reset that is
cancelled by the next packet, so it has no effect on a synchronous sample
trace and is not part of the state. -/
def updateReadings (cfg : Config) (st : LoggerState) (now : ℤ)
    (voltage resistance : Meas) (rUnit : String) : LoggerState :=
  if st.waitingForProbeRemoval = true ∧
      (¬ isValidSample voltage resistance ∨
        (voltage.isNum = true ∧ voltage.val < PROBE_REMOVAL_THRESHOLD)) then
    { st with waitingForProbeRemoval := false, isReadingInProgress := false,
              stableCount := 0, stabilityProgress := 0, isWaiting := true }
  else if ¬ isValidSample voltage resistance then
    (if st.waitingForProbeRemoval = false ∧ st.isReadingInProgress = true then
      { st with stableCount := 0, stabilityProgress := 0, isWaiting := true,
                stabilityText := "Invalid reading" }
    else st)
  else if st.waitingForProbeRemoval = true then
    { st with stabilityText := "Remove probes before next reading" }
  else if st.isReadingInProgress = false ∧ now - st.lastReadingTime < COOLDOWN_PERIOD then
    { st with stabilityText := "Please wait before next reading..." }
  else
    let st1 :=
      if st.isReadingInProgress = false then
        { st with isReadingInProgress := true, stableCount := 0,
                  prevVoltage := none, prevResistance := none,
                  stabilityProgress := 0, isWaiting := true }
      else st
    let checked := checkStability st1 voltage.val resistance.val rUnit
    let st2 := checked.1
    if checked.2 = true then
      let st3 := { st2 with stableCount := st2.stableCount + 1 }
      let progress : ℚ := (st3.stableCount : ℚ) / (REQUIRED_STABLE : ℚ)
      let newText := if progress < 1 then "Stabilizing..." else st3.stabilityText
      let st4 := { st3 with stabilityProgress := progress * 100,
                            isWaiting := false, stabilityText := newText }
      if st4.stableCount = REQUIRED_STABLE then
        let st5 := recordReading cfg st4 voltage.val resistance.val rUnit
        { st5 with lastReadingTime := now }
      else st4
    else if st2.waitingForProbeRemoval = false then
      { st2 with stableCount := 0, stabilityProgress := 0, isWaiting := true,
                 stabilityText := "Waiting for stable reading..." }
    else st2

/-- The Reading built by the cell-completion effect
(useBatteryLogger.ts lines 144-156): averages over the buffer divided by
the target count, 4-decimal formatting, unit from the first buffered
sample. -/
def mkCompletedReading (cfg : Config) (st : LoggerState) (timestamp : String) :
    Reading :=
  let t := targetReadings cfg
  let avgVoltage : ℚ := (st.currentReadings.map CurrentReading.voltage).sum / (t : ℚ)
  let avgResistance : ℚ :=
    (st.currentReadings.map CurrentReading.resistance).sum / (t : ℚ)
  { cellNum := some st.cellNum,
    cellType := getEffectiveCellType cfg,
    voltage := toFixed4 avgVoltage,
    resistance := toFixed4 avgResistance,
    rUnit := (st.currentReadings.headD ⟨0, 0, ""⟩).rUnit,
    timestamp := timestamp }

/-- Log append with the duplicate guard (useBatteryLogger.ts lines
158-164): a no-op when a reading with the same cell number is already
present. -/
def appendReading (log : List Reading) (reading : Reading) : List Reading :=
  if log.any (fun r => jsNumEq r.cellNum reading.cellNum) then log
  else log ++ [reading]

/-- Cell-completion effect (the `useEffect` on `currentReadings`): when the
buffer has exactly the target number of samples, build the averaged
Reading, append it unless its cell number is already present, advance the
cell counter, clear the buffer, set the saved status and flip the tracker
to awaiting-probe-removal. -/
def completeCellEffect (cfg : Config) (st : LoggerState) (timestamp : String) :
    LoggerState :=
  if st.currentReadings.length = targetReadings cfg ∧ 0 < st.currentReadings.length then
    let reading := mkCompletedReading cfg st timestamp
    { st with readings := appendReading st.readings reading,
              cellNum := st.cellNum + 1,
              currentReadings := [],
              stabilityText := "Reading saved. Move probes to next cell.",
              waitingForProbeRemoval := true }
  else st

/-- The arithmetical content of a successful pairwise stability comparison
against the stored previous sample. -/
def StablePair (st : LoggerState) (v r : ℚ) (u : String) : Prop :=
  ∃ pv pr, st.prevVoltage = some pv ∧ st.prevResistance = some pr ∧
    |v - pv| < EPSILON_VOLTAGE ∧ |r - pr| < EPSILON_RESISTANCE ∧
    st.prevRUnit = some u

theorem isValidSample_num (v r : ℚ) :
    isValidSample (Meas.num v) (Meas.num r) ↔ 0 < v := by
  simp [isValidSample, Meas.isNum, Meas.val]

theorem checkStability_fst (st : LoggerState) (v r : ℚ) (u : String) :
    (checkStability st v r u).1 =
      { st with prevVoltage := some v, prevResistance := some r,
                prevRUnit := some u } := by
  unfold checkStability
  rcases st.prevVoltage with _ | pv <;> rcases st.prevResistance with _ | pr <;> rfl

theorem checkStability_snd_iff (st : LoggerState) (v r : ℚ) (u : String) :
    (checkStability st v r u).2 = true ↔ StablePair st v r u := by
  unfold checkStability
  rcases hpv : st.prevVoltage with _ | pv <;> rcases hpr : st.prevResistance with _ | pr <;>
    simp [StablePair, hpv, hpr, decide_eq_true_eq, and_assoc]

theorem step_cooldown (cfg : Config) (st : LoggerState) (now : ℤ)
    (v r : ℚ) (u : String)
    (hw : st.waitingForProbeRemoval = false)
    (hp : st.isReadingInProgress = false)
    (hv : 0 < v)
    (hcool : now - st.lastReadingTime < COOLDOWN_PERIOD) :
    updateReadings cfg st now (Meas.num v) (Meas.num r) u =
      { st with stabilityText := "Please wait before next reading..." } := by
  have hvalid : isValidSample (Meas.num v) (Meas.num r) := (isValidSample_num v r).mpr hv
  simp [updateReadings, hw, hp, hvalid, hcool]

theorem step_fresh (cfg : Config) (st : LoggerState) (now : ℤ)
    (v r : ℚ) (u : String)
    (hw : st.waitingForProbeRemoval = false)
    (hp : st.isReadingInProgress = false)
    (hv : 0 < v)
    (hcool : ¬ (now - st.lastReadingTime < COOLDOWN_PERIOD)) :
    updateReadings cfg st now (Meas.num v) (Meas.num r) u =
      { st with isReadingInProgress := true, stableCount := 0,
                prevVoltage := some v, prevResistance := some r, prevRUnit := some u,
                stabilityProgress := 0, isWaiting := true,
                stabilityText := "Waiting for stable reading..." } := by
  have hvalid : isValidSample (Meas.num v) (Meas.num r) := (isValidSample_num v r).mpr hv
  simp [updateReadings, checkStability, hw, hp, hvalid, hcool, Meas.val]

theorem step_removal (cfg : Config) (st : LoggerState) (now : ℤ)
    (voltage resistance : Meas) (u : String)
    (hw : st.waitingForProbeRemoval = true)
    (hlow : ¬ isValidSample voltage resistance ∨
      (voltage.isNum = true ∧ voltage.val < PROBE_REMOVAL_THRESHOLD)) :
    updateReadings cfg st now voltage resistance u =
      { st with waitingForProbeRemoval := false, isReadingInProgress := false,
                stableCount := 0, stabilityProgress := 0, isWaiting := true } := by
  unfold updateReadings
  rw [if_pos (⟨hw, hlow⟩ : _ ∧ _)]

theorem step_break (cfg : Config) (st : LoggerState) (now : ℤ)
    (v r : ℚ) (u : String)
    (hw : st.waitingForProbeRemoval = false)
    (hp : st.isReadingInProgress = true)
    (hv : 0 < v)
    (hnostab : ¬ StablePair st v r u) :
    updateReadings cfg st now (Meas.num v) (Meas.num r) u =
      { st with stableCount := 0,
                prevVoltage := some v, prevResistance := some r, prevRUnit := some u,
                stabilityProgress := 0, isWaiting := true,
                stabilityText := "Waiting for stable reading..." } := by
  have hvalid : isValidSample (Meas.num v) (Meas.num r) := (isValidSample_num v r).mpr hv
  have hsnd : (checkStability st v r u).2 = false := by
    rw [← Bool.not_eq_true, checkStability_snd_iff]
    exact hnostab
  simp [updateReadings, hw, hp, hvalid, checkStability_fst, hsnd, Meas.val]

theorem step_stable_nonfinal (cfg : Config) (st : LoggerState) (now : ℤ)
    (v r : ℚ) (u : String)
    (hw : st.waitingForProbeRemoval = false)
    (hp : st.isReadingInProgress = true)
    (hv : 0 < v)
    (hstab : StablePair st v r u)
    (hcount : st.stableCount ≠ 9) :
    updateReadings cfg st now (Meas.num v) (Meas.num r) u =
      { st with stableCount := st.stableCount + 1,
                prevVoltage := some v, prevResistance := some r, prevRUnit := some u,
                stabilityProgress := ((st.stableCount + 1 : ℕ) : ℚ) / 10 * 100,
                isWaiting := false,
                stabilityText :=
                  if ((st.stableCount + 1 : ℕ) : ℚ) / 10 < 1 then "Stabilizing..."
                  else st.stabilityText } := by
  have hvalid : isValidSample (Meas.num v) (Meas.num r) := (isValidSample_num v r).mpr hv
  have hsnd : (checkStability st v r u).2 = true := (checkStability_snd_iff st v r u).mpr hstab
  simp [updateReadings, hw, hp, hvalid, checkStability_fst, hsnd, hcount,
    REQUIRED_STABLE, Meas.val]

theorem step_stable_final (cfg : Config) (st : LoggerState) (now : ℤ)
    (v r : ℚ) (u : String)
    (hw : st.waitingForProbeRemoval = false)
    (hp : st.isReadingInProgress = true)
    (hv : 0 < v)
    (hstab : StablePair st v r u)
    (hcount : st.stableCount = 9)
    (hcap : st.currentReadings.length < targetReadings cfg) :
    updateReadings cfg st now (Meas.num v) (Meas.num r) u =
      { st with stableCount := 10,
                prevVoltage := some v, prevResistance := some r, prevRUnit := some u,
                stabilityProgress := 100, isWaiting := false,
                currentReadings := st.currentReadings ++ [⟨v, r, u⟩],
                stabilityText := "Remove probes before next reading",
                waitingForProbeRemoval := true,
                lastReadingTime := now } := by
  have hvalid : isValidSample (Meas.num v) (Meas.num r) := (isValidSample_num v r).mpr hv
  have hsnd : (checkStability st v r u).2 = true := (checkStability_snd_iff st v r u).mpr hstab
  have hcap' : ¬ (st.currentReadings.length ≥ targetReadings cfg) := by omega
  simp [updateReadings, recordReading, hw, hp, hvalid, checkStability_fst, hsnd,
    hcount, REQUIRED_STABLE, hcap', Meas.val]

/-- C2: in an in-progress, valid, non-waiting observation step, the sample
is appended to the averaging buffer exactly when the comparison against the
previous sample is within tolerance and the consecutive-stable counter
thereby reaches 10 (so that 10 consecutive successful comparisons, i.e. 11
in-tolerance raw samples, are required from a fresh baseline); on any broken
comparison nothing is recorded and the counter restarts at 0; the stored
previous values become the current sample on every observation regardless of
outcome, giving the fresh baseline of a restarted run. -/
theorem C2_stability_run (cfg : Config) (st : LoggerState) (now : ℤ)
    (v r : ℚ) (u : String) (st' : LoggerState)
    (hst : st' = updateReadings cfg st now (Meas.num v) (Meas.num r) u)
    (hw : st.waitingForProbeRemoval = false)
    (hp : st.isReadingInProgress = true)
    (hv : 0 < v)
    (hcap : st.currentReadings.length < targetReadings cfg) :
    (st'.currentReadings = st.currentReadings ∨
      st'.currentReadings = st.currentReadings ++ [⟨v, r, u⟩]) ∧
    (st'.currentReadings = st.currentReadings ++ [⟨v, r, u⟩] ↔
      StablePair st v r u ∧ st.stableCount = 9) ∧
    (¬ StablePair st v r u →
      st'.currentReadings = st.currentReadings ∧ st'.stableCount = 0) ∧
    st'.prevVoltage = some v ∧ st'.prevResistance = some r ∧
    st'.prevRUnit = some u := by
  have hne : st.currentReadings ≠
      st.currentReadings ++ [(⟨v, r, u⟩ : CurrentReading)] := by
    intro hcon
    have := congrArg List.length hcon
    simp at this
  by_cases hstab : StablePair st v r u
  · by_cases hcount : st.stableCount = 9
    · rw [step_stable_final cfg st now v r u hw hp hv hstab hcount hcap] at hst
      subst hst
      refine ⟨Or.inr rfl, ⟨fun _ => ⟨hstab, hcount⟩, fun _ => rfl⟩, ?_, rfl, rfl, rfl⟩
      intro hcon
      exact absurd hstab hcon
    · rw [step_stable_nonfinal cfg st now v r u hw hp hv hstab hcount] at hst
      subst hst
      dsimp only
      refine ⟨Or.inl rfl, ⟨fun hcon => absurd hcon hne, fun hcon => ?_⟩,
        fun hcon => absurd hstab hcon, rfl, rfl, rfl⟩
      exact absurd hcon.2 hcount
  · rw [step_break cfg st now v r u hw hp hv hstab] at hst
    subst hst
    dsimp only
    exact ⟨Or.inl rfl, ⟨fun hcon => absurd hcon hne, fun hcon => absurd hcon.1 hstab⟩,
      fun _ => ⟨rfl, rfl⟩, rfl, rfl, rfl⟩

/-- C9 (amended): if no reading is in progress, the tracker is not awaiting
probe removal, and fewer than 3000 ms have elapsed since the last recorded
reading (`lastReadingTime`, which is set at every captured sub-reading, not
only at cell completion), a valid sample changes nothing except the status
text, which becomes the "please wait" message — in particular no stability
run is started. -/
theorem C9_cooldown_blocks (cfg : Config) (st : LoggerState) (now : ℤ)
    (v r : ℚ) (u : String) (st' : LoggerState)
    (hst : st' = updateReadings cfg st now (Meas.num v) (Meas.num r) u)
    (hw : st.waitingForProbeRemoval = false)
    (hp : st.isReadingInProgress = false)
    (hv : 0 < v)
    (hcool : now - st.lastReadingTime < COOLDOWN_PERIOD) :
    st' = { st with stabilityText := "Please wait before next reading..." } := by
  subst hst
  exact step_cooldown cfg st now v r u hw hp hv hcool

def cfgTwo : Config := ⟨true, 2, "T", ""⟩

def cexInit : LoggerState :=
  ⟨[], 1, [], 0, none, none, none, false, false, 0, 0, true, "Waiting for connection"⟩

/-- The accumulating states reached while the first sub-reading of a
two-reading cycle stabilizes (counter value c). -/
def cexAcc (c : ℕ) : LoggerState :=
  { cexInit with
      isReadingInProgress := true, stableCount := c,
      prevVoltage := some (37 / 10), prevResistance := some (1 / 100),
      prevRUnit := some "mΩ",
      stabilityProgress := if c = 0 then 0 else (c : ℚ) / 10 * 100,
      isWaiting := c == 0,
      stabilityText :=
        if c = 0 then "Waiting for stable reading..." else "Stabilizing..." }

/-- The state right after the first of two sub-readings is captured. -/
def cexRecorded : LoggerState :=
  { cexAcc 9 with
      stableCount := 10, stabilityProgress := 100, isWaiting := false,
      currentReadings := [⟨37 / 10, 1 / 100, "mΩ"⟩],
      stabilityText := "Remove probes before next reading",
      waitingForProbeRemoval := true, lastReadingTime := 10000 }

/-- The mid-cycle state after the probes were lifted: one sub-reading
buffered, none in progress, not awaiting probe removal. -/
def cexMid : LoggerState :=
  { cexRecorded with
      waitingForProbeRemoval := false, isReadingInProgress := false,
      stableCount := 0, stabilityProgress := 0, isWaiting := true }

/-- C9 (counterexample): a reachable trace on which the cooldown blocks
between samples within one averaging cycle.  With two readings to average,
the first sub-reading is captured at t=10000; lifting the probes at t=10500
re-arms the tracker mid-cycle; a valid in-tolerance sample at t=12000
(2000 ms after the last capture, with no cell completed yet) is answered
with the "please wait" cooldown message instead of starting a stability
run. -/
theorem C9_cooldown_mid_cycle_counterexample :
    List.foldl
      (fun st p => updateReadings cfgTwo st p.1 (Meas.num p.2.1) (Meas.num p.2.2) "mΩ")
      cexInit
      [(10000, 37 / 10, 1 / 100), (10000, 37 / 10, 1 / 100), (10000, 37 / 10, 1 / 100),
       (10000, 37 / 10, 1 / 100), (10000, 37 / 10, 1 / 100), (10000, 37 / 10, 1 / 100),
       (10000, 37 / 10, 1 / 100), (10000, 37 / 10, 1 / 100), (10000, 37 / 10, 1 / 100),
       (10000, 37 / 10, 1 / 100), (10000, 37 / 10, 1 / 100), (10500, 1 / 100, 1 / 100)] =
      cexMid ∧
    cexMid.currentReadings.length = 1 ∧
    cexMid.currentReadings.length < targetReadings cfgTwo ∧
    cexMid.isReadingInProgress = false ∧
    cexMid.waitingForProbeRemoval = false ∧
    updateReadings cfgTwo cexMid 12000 (Meas.num (37 / 10)) (Meas.num (1 / 100)) "mΩ" =
      { cexMid with stabilityText := "Please wait before next reading..." } := by
  have hstab : ∀ c : ℕ, StablePair (cexAcc c) (37 / 10) (1 / 100) "mΩ" :=
    fun c => ⟨37 / 10, 1 / 100, rfl, rfl, by norm_num [EPSILON_VOLTAGE],
      by norm_num [EPSILON_RESISTANCE], rfl⟩
  have e0 : updateReadings cfgTwo cexInit 10000
      (Meas.num (37 / 10)) (Meas.num (1 / 100)) "mΩ" = cexAcc 0 := by
    rw [step_fresh cfgTwo cexInit 10000 (37 / 10) (1 / 100) "mΩ" rfl rfl
      (by norm_num) (by decide)]
    simp [cexInit, cexAcc]
  have eStep : ∀ c : ℕ, c < 9 →
      updateReadings cfgTwo (cexAcc c) 10000
        (Meas.num (37 / 10)) (Meas.num (1 / 100)) "mΩ" = cexAcc (c + 1) := by
    intro c hc
    have hcnt : (cexAcc c).stableCount ≠ 9 := by
      simp only [cexAcc]
      omega
    rw [step_stable_nonfinal cfgTwo (cexAcc c) 10000 (37 / 10) (1 / 100) "mΩ" rfl rfl
      (by norm_num) (hstab c) hcnt]
    have h1 : ((c : ℚ) + 1) / 10 < 1 := by
      rw [div_lt_one (by norm_num)]
      have hcq : (c : ℚ) ≤ 8 := by exact_mod_cast Nat.lt_succ_iff.mp hc
      linarith
    simp [cexAcc, h1]
  have eRec : updateReadings cfgTwo (cexAcc 9) 10000
      (Meas.num (37 / 10)) (Meas.num (1 / 100)) "mΩ" = cexRecorded := by
    rw [step_stable_final cfgTwo (cexAcc 9) 10000 (37 / 10) (1 / 100) "mΩ" rfl rfl
      (by norm_num) (hstab 9) rfl (by decide)]
    rfl
  have eRem : updateReadings cfgTwo cexRecorded 10500
      (Meas.num (1 / 100)) (Meas.num (1 / 100)) "mΩ" = cexMid := by
    rw [step_removal cfgTwo cexRecorded 10500
      (Meas.num (1 / 100)) (Meas.num (1 / 100)) "mΩ" rfl
      (Or.inr ⟨rfl, by norm_num [Meas.val, PROBE_REMOVAL_THRESHOLD]⟩)]
    rfl
  have eCool : updateReadings cfgTwo cexMid 12000
      (Meas.num (37 / 10)) (Meas.num (1 / 100)) "mΩ" =
      { cexMid with stabilityText := "Please wait before next reading..." } :=
    step_cooldown cfgTwo cexMid 12000 (37 / 10) (1 / 100) "mΩ" rfl rfl
      (by norm_num) (by decide)
  refine ⟨?_, rfl, by decide, rfl, rfl, eCool⟩
  simp only [List.foldl]
  rw [e0, eStep 0 (by omega), eStep 1 (by omega), eStep 2 (by omega),
    eStep 3 (by omega), eStep 4 (by omega), eStep 5 (by omega),
    eStep 6 (by omega), eStep 7 (by omega), eStep 8 (by omega), eRec, eRem]

/-- C10: when a completed averaging cycle builds a Reading whose cell
number already exists in the log, only the log insertion is suppressed: the
log is unchanged, while the cell index still advances, the buffer is still
cleared, the status still becomes the saved message, and the tracker still
enters awaiting-probe-removal. -/
theorem C10_duplicate_completion_frame (cfg : Config) (st : LoggerState)
    (ts : String) (st' : LoggerState)
    (hst : st' = completeCellEffect cfg st ts)
    (hfull : st.currentReadings.length = targetReadings cfg)
    (hpos : 0 < st.currentReadings.length)
    (hdup : ∃ x ∈ st.readings, x.cellNum = some st.cellNum) :
    st'.readings = st.readings ∧
    st'.cellNum = st.cellNum + 1 ∧
    st'.currentReadings = [] ∧
    st'.stabilityText = "Reading saved. Move probes to next cell." ∧
    st'.waitingForProbeRemoval = true := by
  subst hst
  have hany : st.readings.any
      (fun r => jsNumEq r.cellNum (mkCompletedReading cfg st ts).cellNum) = true := by
    rcases hdup with ⟨x, hx, hcell⟩
    rw [List.any_eq_true]
    refine ⟨x, hx, ?_⟩
    rw [hcell]
    simp [jsNumEq, mkCompletedReading]
  unfold completeCellEffect
  rw [if_pos ⟨hfull, hpos⟩]
  simp [appendReading, hany]

/-- C3: a full averaging buffer finalizes into a Reading whose voltage and
resistance are the arithmetic means of the buffered values formatted by
toFixed(4), whose unit comes from a buffered sample; the Reading is
appended (when its cell is new), the buffer is cleared and the cell index
advances by one. -/
theorem C3_averaging_correct (cfg : Config) (st : LoggerState)
    (ts : String) (st' : LoggerState)
    (hst : st' = completeCellEffect cfg st ts)
    (hfull : st.currentReadings.length = targetReadings cfg)
    (hpos : 0 < st.currentReadings.length)
    (hnew : ∀ x ∈ st.readings, x.cellNum ≠ some st.cellNum) :
    ∃ rd, st'.readings = st.readings ++ [rd] ∧
      rd.voltage = toFixed4 ((st.currentReadings.map CurrentReading.voltage).sum /
        (st.currentReadings.length : ℚ)) ∧
      rd.resistance = toFixed4 ((st.currentReadings.map CurrentReading.resistance).sum /
        (st.currentReadings.length : ℚ)) ∧
      (∃ s ∈ st.currentReadings, rd.rUnit = s.rUnit) ∧
      st'.currentReadings = [] ∧
      st'.cellNum = st.cellNum + 1 := by
  subst hst
  have hany : st.readings.any
      (fun r => jsNumEq r.cellNum (mkCompletedReading cfg st ts).cellNum) = false := by
    rw [List.any_eq_false]
    intro x hx
    have hx' := hnew x hx
    simp only [mkCompletedReading]
    rcases hcell : x.cellNum with _ | k
    · simp [jsNumEq]
    · have hne : k ≠ st.cellNum := fun hkk => hx' (by rw [hcell, hkk])
      simp [jsNumEq, hne]
  refine ⟨mkCompletedReading cfg st ts, ?_⟩
  unfold completeCellEffect
  rw [if_pos ⟨hfull, hpos⟩]
  have hhead : ∃ s ∈ st.currentReadings,
      (mkCompletedReading cfg st ts).rUnit = s.rUnit := by
    rcases hbuf : st.currentReadings with _ | ⟨a, l⟩
    · rw [hbuf] at hpos
      simp at hpos
    · refine ⟨a, by simp [hbuf], ?_⟩
      simp [mkCompletedReading, hbuf]
  refine ⟨?_, ?_, ?_, hhead, rfl, rfl⟩
  · simp [appendReading, hany]
  · simp only [mkCompletedReading, hfull]
  · simp only [mkCompletedReading, hfull]

/-- C7: appending a Reading whose (non-NaN) cell index already occurs in
the log leaves the log unchanged — the duplicate guard makes append
idempotent on cell indices, silently. -/
theorem C7_append_duplicate_noop (log : List Reading) (reading : Reading)
    (k : ℤ) (hk : reading.cellNum = some k)
    (hocc : some k ∈ log.map Reading.cellNum) :
    appendReading log reading = log := by
  unfold appendReading
  rw [if_pos]
  rw [List.any_eq_true]
  rcases List.mem_map.mp hocc with ⟨x, hx, hcell⟩
  refine ⟨x, hx, ?_⟩
  rw [hcell, hk]
  simp [jsNumEq]

/-! Byte-stream processing.  The hook entry point `processData` decodes the
first 10 bytes of each chunk, recurses past them, and silently discards any
tail shorter than 10 bytes; the standalone script instead keeps a rolling
`messageBuffer` (`appendToBuffer`) and drains it in 10-byte packets. -/

/-- The ordered sequence of decoded samples the hook `processData` produces
for one chunk (its decode-and-recurse skeleton, lines 191-194 and 309-311):
a chunk shorter than 10 bytes yields nothing, and after each packet only a
remainder longer than 10 bytes is processed further. -/
def processDataSamples (data : List Nat) : List DecodedSample :=
  if data.length < 10 then []
  else
    processPacket (data.take 10) ::
      (if h : data.length > 10 then processDataSamples (data.drop 10) else [])
termination_by data.length
decreasing_by simp only [List.length_drop]; omega

/-- Feeding chunks to the hook entry point in arrival order; no state is
kept between invocations. -/
def hookStreamSamples (chunks : List (List Nat)) : List DecodedSample :=
  (chunks.map processDataSamples).flatten

/-- The drain loop of `appendToBuffer` (standalone script): process leading
10-byte packets, return the remainder and the decoded samples. -/
def drainBuffer (buf : List Nat) : List Nat × List DecodedSample :=
  if h : buf.length ≥ 10 then
    let rest := drainBuffer (buf.drop 10)
    (rest.1, processPacket (buf.take 10) :: rest.2)
  else (buf, [])
termination_by buf.length
decreasing_by simp only [List.length_drop]; omega

/-- `appendToBuffer`: merge the new chunk into the rolling buffer, then
drain whole packets. -/
def appendToBuffer (buf newData : List Nat) : List Nat × List DecodedSample :=
  drainBuffer (buf ++ newData)

/-- Feeding a chunk sequence through the rolling buffer, collecting the
decoded samples in order together with the final leftover buffer. -/
def bufferedStream (buf : List Nat) : List (List Nat) → List Nat × List DecodedSample
  | [] => (buf, [])
  | c :: cs =>
      let step := appendToBuffer buf c
      let rest := bufferedStream step.1 cs
      (rest.1, step.2 ++ rest.2)

def chunkA : List Nat := [0x59, 0, 100, 0, 0]

def chunkB : List Nat := [1, 0, 0xf4, 0x01, 0, 0x59, 0, 200, 0, 0, 1, 0, 0xf4, 0x01, 0]

/-- C4 (code evaluated at the failing input): splitting two packets into a
5-byte chunk and a 15-byte chunk makes the hook entry point decode a single
misaligned sample where the unsplit stream decodes two, because the 5-byte
chunk and the 5-byte recursion tails are silently dropped instead of being
buffered; the rolling-buffer entry point of the standalone script decodes
the identical sample sequence either way. -/
theorem C4_hook_drops_split_packets :
    (hookStreamSamples [chunkA, chunkB]).length = 1 ∧
    (hookStreamSamples [chunkA ++ chunkB]).length = 2 ∧
    hookStreamSamples [chunkA, chunkB] ≠ hookStreamSamples [chunkA ++ chunkB] ∧
    (bufferedStream [] [chunkA, chunkB]).2 = (bufferedStream [] [chunkA ++ chunkB]).2 := by
  have e1 : (hookStreamSamples [chunkA, chunkB]).length = 1 := by
    rw [hookStreamSamples]
    rw [List.map_cons, List.map_cons, List.map_nil]
    rw [processDataSamples, processDataSamples]
    simp [chunkA, chunkB, processDataSamples]
  have e2 : (hookStreamSamples [chunkA ++ chunkB]).length = 2 := by
    rw [hookStreamSamples]
    rw [List.map_cons, List.map_nil]
    rw [processDataSamples]
    simp [chunkA, chunkB, processDataSamples]
  refine ⟨e1, e2, fun hcon => ?_, ?_⟩
  · rw [congrArg List.length hcon, e2] at e1
    exact absurd e1 (by omega)
  · rw [bufferedStream, bufferedStream, bufferedStream, bufferedStream]
    simp only [appendToBuffer]
    rw [drainBuffer, drainBuffer, drainBuffer, drainBuffer]
    simp [chunkA, chunkB, drainBuffer, bufferedStream]

/-! CSV export/import (`exportToCSV` / `importFromCSV`).  The JS string
operations used there all take one-character separators, modelled over the
character lists underlying Lean strings. -/

/-- JS `String.prototype.split` with a one-character separator. -/
def jsSplit (s : String) (c : Char) : List String :=
  (s.toList.splitOn c).map String.mk

/-- JS `Array.prototype.join` with a one-character separator. -/
def jsJoin (c : Char) (parts : List String) : String :=
  String.mk (List.intercalate [c] (parts.map String.toList))

/-- JS `String.prototype.trim`. -/
def jsTrim (s : String) : String :=
  String.mk (((s.toList.dropWhile Char.isWhitespace).reverse.dropWhile
    Char.isWhitespace).reverse)

/-- JS `String.prototype.replace` with a one-character pattern and the
empty replacement: removes the first occurrence only. -/
def jsRemoveFirst (s : String) (c : Char) : String :=
  match s.toList.splitOn c with
  | [] => s
  | [x] => String.mk x
  | x :: rest => String.mk (x ++ List.intercalate [c] rest)

def digitVal (ch : Char) : Nat := ch.toNat - 48

def digitsToNat (cs : List Char) : Nat :=
  cs.foldl (fun a ch => 10 * a + digitVal ch) 0

/-- JS `parseInt(s)` (radix 10) as exercised by the import path: skip
surrounding whitespace, take an optional sign and a leading digit run, and
produce NaN (`none`) when no digit is found.  (The automatic radix-16
branch for a "0x" prefix is never reachable from digit-only cell fields and
is not modelled.) -/
def jsParseInt (s : String) : Option ℤ :=
  let t := (jsTrim s).toList
  let signNeg := t.headD ' ' = '-'
  let t2 := if t.headD ' ' = '-' ∨ t.headD ' ' = '+' then t.drop 1 else t
  let digits := t2.takeWhile Char.isDigit
  if digits = [] then none
  else some ((if signNeg then -1 else 1) * (digitsToNat digits : ℤ))

/-- One CSV data row of `exportToCSV` (useBatteryLogger.ts line 427):
`[cellNum, cellType || "N/A", voltage + "V", resistance + " " + rUnit,
timestamp]`. -/
def csvRow (r : Reading) : List String :=
  [jsNumToString r.cellNum, (if r.cellType = "" then "N/A" else r.cellType),
   r.voltage ++ "V", r.resistance ++ " " ++ r.rUnit, r.timestamp]

/-- The CSV text built by `exportToCSV`: header row then one row per
reading, cells joined by commas, rows joined by newlines. -/
def exportToCSV (readings : List Reading) : String :=
  jsJoin '\n' (jsJoin ',' ["Cell #", "Type", "Voltage", "ACIR", "Time"] ::
    readings.map (fun r => jsJoin ',' (csvRow r)))

/-- Parse one CSV data line (`importFromCSV` body of the forEach): at least
5 comma-separated fields or the row is skipped; the voltage drops its first
"V"; the ACIR field is trimmed and split on a space into magnitude and unit
(defaulting to milliohm). -/
def parseCSVLine (line : String) : Option Reading :=
  let parts := jsSplit line ','
  if parts.length ≥ 5 then
    let acirParts := jsSplit (jsTrim (parts.getD 3 "")) ' '
    some { cellNum := jsParseInt (parts.getD 0 ""),
           cellType := parts.getD 1 "",
           voltage := jsRemoveFirst (parts.getD 2 "") 'V',
           resistance := acirParts.getD 0 "",
           rUnit := (if acirParts.getD 1 "" = "" then "mΩ" else acirParts.getD 1 ""),
           timestamp := parts.getD 4 "" }
  else none

/-- The import path (`importFromCSV`): drop the header line, keep non-blank
lines, fail (toast, no side effects) when none remain, otherwise replace
the whole log with the parsed rows and set the next cell index to one more
than the largest parsed cell number. -/
def importFromCSV (csvContent : String) : Option (List Reading × ℤ) :=
  let lines := jsSplit csvContent '\n'
  let dataLines := (lines.drop 1).filter (fun l => jsTrim l ≠ "")
  if dataLines.length = 0 then none
  else
    let importedReadings := dataLines.filterMap parseCSVLine
    let maxCellNum : ℤ := importedReadings.foldl
      (fun m r =>
        match r.cellNum with
        | some cn => if m < cn then cn else m
        | none => m) 0
    some (importedReadings, maxCellNum + 1)

/-- The log invariant of the spec: at most one Reading per actual cell
index. -/
def UniqueCells (log : List Reading) : Prop :=
  ∀ k : ℤ, (log.filter (fun r => r.cellNum == some k)).length ≤ 1

/-- The log part of `reloadCell`: drop every reading whose cell number is
strictly equal (JS `!==` filter) to the target. -/
def reloadCellReadings (log : List Reading) (targetCellNum : ℤ) : List Reading :=
  log.filter (fun r => !(jsNumEq r.cellNum (some targetCellNum)))

theorem uniqueCells_append (log : List Reading) (reading : Reading)
    (h : UniqueCells log) : UniqueCells (appendReading log reading) := by
  intro k
  unfold appendReading
  split_ifs with hany
  · exact h k
  · rw [List.filter_append]
    by_cases hcell : reading.cellNum == some k
    · have hnone : (log.filter (fun r => r.cellNum == some k)).length = 0 := by
        rw [List.length_eq_zero, List.filter_eq_nil_iff]
        intro x hx
        intro hxk
        have hmatch : jsNumEq x.cellNum reading.cellNum = true := by
          have hx' : x.cellNum = some k := by
            have := of_decide_eq_true (by simpa using hxk)
            simpa using hxk
          have hr' : reading.cellNum = some k := by simpa using hcell
          rw [hx', hr']
          simp [jsNumEq]
        have : log.any (fun r => jsNumEq r.cellNum reading.cellNum) = true :=
          List.any_eq_true.mpr ⟨x, hx, hmatch⟩
        exact hany this
      simp [hnone, List.filter, hcell]
    · have : (([reading] : List Reading).filter (fun r => r.cellNum == some k)).length = 0 := by
        simp [List.filter, hcell]
      rw [List.length_append, this]
      simpa using h k


theorem uniqueCells_reload (log : List Reading) (target : ℤ)
    (h : UniqueCells log) : UniqueCells (reloadCellReadings log target) := by
  intro k
  have hsub : List.Sublist
      ((reloadCellReadings log target).filter (fun r => r.cellNum == some k))
      (log.filter (fun r => r.cellNum == some k)) :=
    List.Sublist.filter _ (List.filter_sublist log)
  exact le_trans hsub.length_le (h k)

theorem uniqueCells_of_nodup (rs : List Reading)
    (h : (rs.filterMap Reading.cellNum).Nodup) : UniqueCells rs := by
  intro k
  induction rs with
  | nil => simp
  | cons a t ih =>
    rcases hcell : a.cellNum with _ | c
    · have ht : (t.filterMap Reading.cellNum).Nodup := by
        rw [List.filterMap_cons, hcell] at h
        exact h
      have := ih ht
      simpa [List.filter, hcell] using this
    · rw [List.filterMap_cons, hcell] at h
      rw [List.nodup_cons] at h
      by_cases hck : c = k
      · subst hck
        have hnone : (t.filter (fun r => r.cellNum == some c)).length = 0 := by
          rw [List.length_eq_zero, List.filter_eq_nil_iff]
          intro x hx hxk
          apply h.1
          rw [List.mem_filterMap]
          exact ⟨x, hx, by simpa using hxk⟩
        simp [List.filter, hcell, hnone]
      · have := ih h.2
        have hfalse : (a.cellNum == some k) = false := by
          rw [hcell]
          simpa using hck
        simpa [List.filter, hfalse] using this

/-- C8 (amended): the append-on-completion duplicate guard, reload
(remove-by-cell-index) and clear all preserve the at-most-one-Reading-per-
cell-index invariant; bulk import replaces the log with exactly the parsed
rows, so the imported log satisfies the invariant only under the additional
assumption that the parsed rows carry pairwise distinct cell numbers —
the importer itself performs no duplicate rejection. -/
theorem C8_log_invariant_operations (log : List Reading) (reading : Reading)
    (target : ℤ) (csv : String) (rs : List Reading) (m : ℤ)
    (hu : UniqueCells log)
    (himp : importFromCSV csv = some (rs, m))
    (hdistinct : (rs.filterMap Reading.cellNum).Nodup) :
    UniqueCells (appendReading log reading) ∧
    UniqueCells (reloadCellReadings log target) ∧
    UniqueCells ([] : List Reading) ∧
    UniqueCells rs :=
  ⟨uniqueCells_append log reading hu, uniqueCells_reload log target hu,
   fun k => by simp, uniqueCells_of_nodup rs hdistinct⟩

def dupCSV : String :=
  "Cell #,Type,Voltage,ACIR,Time\n1,T,1.0000V,0.0100 mΩ,ts\n1,T,1.0000V,0.0100 mΩ,ts"

def dupRow : Reading :=
  { cellNum := some 1, cellType := "T", voltage := "1.0000",
    resistance := "0.0100", rUnit := "mΩ", timestamp := "ts" }

set_option maxRecDepth 32768 in
theorem importFromCSV_dupCSV : importFromCSV dupCSV = some ([dupRow, dupRow], 2) := by
  decide

/-- C8 (counterexample): importing a CSV whose two data rows both carry
cell number 1 replaces the log with two Readings of the same cell index —
bulk import does not preserve the at-most-one-per-cell invariant. -/
theorem C8_import_duplicates_counterexample :
    importFromCSV dupCSV = some ([dupRow, dupRow], 2) ∧
    ¬ UniqueCells [dupRow, dupRow] := by
  refine ⟨importFromCSV_dupCSV, fun h => ?_⟩
  have h1 := h 1
  have : ([dupRow, dupRow].filter (fun r => r.cellNum == some 1)).length = 2 := by
    decide
  omega

theorem strMk_toList (s : String) : String.mk s.toList = s := by
  cases s
  rfl

theorem toList_mk (l : List Char) : (String.mk l).toList = l := rfl

theorem jsSplit_jsJoin (c : Char) (parts : List String)
    (hne : parts ≠ [])
    (hfree : ∀ p ∈ parts, c ∉ p.toList) :
    jsSplit (jsJoin c parts) c = parts := by
  unfold jsSplit jsJoin
  rw [toList_mk]
  rw [List.splitOn_intercalate (parts.map String.toList) c ?hf ?hn]
  · rw [List.map_map]
    have : (String.mk ∘ String.toList) = id := by
      funext s
      exact strMk_toList s
    rw [this, List.map_id]
  case hf =>
    intro l hl
    rcases List.mem_map.mp hl with ⟨p, hp, rfl⟩
    exact hfree p hp
  case hn =>
    simpa using hne

theorem intercalate_cons_two (c : Char) (a b : List Char) (tl : List (List Char)) :
    List.intercalate [c] (a :: b :: tl) =
      a ++ c :: List.intercalate [c] (b :: tl) := by
  simp [List.intercalate, List.intersperse_cons_cons]

theorem mem_intercalate_single (c : Char) (ls : List (List Char)) (ch : Char)
    (h : ch ∈ List.intercalate [c] ls) : ch = c ∨ ∃ l ∈ ls, ch ∈ l := by
  induction ls with
  | nil => simp [List.intercalate] at h
  | cons a tl ih =>
    cases tl with
    | nil =>
      simp [List.intercalate] at h
      exact Or.inr ⟨a, by simp, h⟩
    | cons b tl2 =>
      rw [intercalate_cons_two] at h
      rcases List.mem_append.mp h with h1 | h1
      · exact Or.inr ⟨a, by simp, h1⟩
      · rcases List.mem_cons.mp h1 with rfl | h2
        · exact Or.inl rfl
        · rcases ih h2 with h3 | ⟨l, hl, hcl⟩
          · exact Or.inl h3
          · exact Or.inr ⟨l, by simp [hl], hcl⟩

theorem jsTrim_eq_self_of_nows (l : List Char)
    (h : ∀ ch ∈ l, ch.isWhitespace = false) :
    jsTrim (String.mk l) = String.mk l := by
  unfold jsTrim
  rw [toList_mk]
  have hdrop : ∀ m : List Char, (∀ ch ∈ m, ch.isWhitespace = false) →
      m.dropWhile Char.isWhitespace = m := by
    intro m hm
    cases m with
    | nil => rfl
    | cons a t =>
      rw [List.dropWhile_cons, if_neg (by simp [hm a (by simp)])]
  rw [hdrop l h, hdrop l.reverse (fun ch hch => h ch (List.mem_reverse.mp hch)),
    List.reverse_reverse]

theorem jsTrim_concat (a z : Char) (mid : List Char)
    (ha : a.isWhitespace = false) (hz : z.isWhitespace = false) :
    jsTrim (String.mk (a :: (mid ++ [z]))) = String.mk (a :: (mid ++ [z])) := by
  unfold jsTrim
  rw [toList_mk]
  rw [List.dropWhile_cons, if_neg (by simp [ha])]
  rw [show (a :: (mid ++ [z])).reverse = z :: (mid.reverse ++ [a]) from by simp]
  rw [List.dropWhile_cons, if_neg (by simp [hz])]
  simp

theorem jsTrim_ne_empty (l : List Char) (ch : Char) (hch : ch ∈ l)
    (hw : ch.isWhitespace = false) : jsTrim (String.mk l) ≠ "" := by
  intro hcon
  have htl := congrArg String.toList hcon
  rw [toList_mk] at htl
  unfold jsTrim at hcon
  have : (((l.dropWhile Char.isWhitespace).reverse.dropWhile
      Char.isWhitespace).reverse) = [] := by
    have := congrArg String.toList hcon
    simpa using this
  rw [List.reverse_eq_nil_iff, List.dropWhile_eq_nil_iff] at this
  have hdropall : ∀ x ∈ l.dropWhile Char.isWhitespace, x.isWhitespace = true :=
    fun x hx => this x (List.mem_reverse.mpr hx)
  have htakeall : ∀ x ∈ l.takeWhile Char.isWhitespace, x.isWhitespace = true :=
    fun x hx => List.mem_takeWhile_imp hx
  have hall : ∀ x ∈ l, x.isWhitespace = true := by
    intro x hx
    rw [← List.takeWhile_append_dropWhile Char.isWhitespace l] at hx
    rcases List.mem_append.mp hx with h1 | h1
    · exact htakeall x h1
    · exact hdropall x h1
  rw [hall ch hch] at hw
  exact absurd hw (by simp)

theorem digitChar_props (d : Nat) :
    (digitChar d).isDigit = true ∧ (digitChar d).isWhitespace = false ∧
    digitChar d ≠ ',' ∧ digitChar d ≠ '\n' ∧ digitChar d ≠ '-' ∧
    digitChar d ≠ '+' ∧ digitChar d ≠ 'V' ∧ digitChar d ≠ ' ' := by
  unfold digitChar
  split_ifs <;> exact ⟨by decide, by decide, by decide, by decide, by decide,
    by decide, by decide, by decide⟩

theorem natToDigits_mem (n : Nat) : ∀ ch ∈ natToDigits n,
    ch.isDigit = true ∧ ch.isWhitespace = false ∧ ch ≠ ',' ∧ ch ≠ '\n' ∧
    ch ≠ '-' ∧ ch ≠ '+' ∧ ch ≠ 'V' ∧ ch ≠ ' ' := by
  induction n using Nat.strong_induction_on with
  | _ n ih =>
    intro ch hch
    rw [natToDigits] at hch
    split_ifs at hch with h
    · rw [List.mem_singleton] at hch
      subst hch
      exact digitChar_props n
    · rcases List.mem_append.mp hch with h1 | h1
      · exact ih (n / 10) (Nat.div_lt_self (by omega) (by omega)) ch h1
      · rw [List.mem_singleton] at h1
        subst h1
        exact digitChar_props (n % 10)

theorem natToDigits_ne_nil (n : Nat) : natToDigits n ≠ [] := by
  rw [natToDigits]
  split_ifs <;> simp

theorem digitVal_digitChar (d : Nat) (h : d < 10) : digitVal (digitChar d) = d := by
  interval_cases d <;> decide

theorem digitsToNat_append (xs : List Char) (ch : Char) :
    digitsToNat (xs ++ [ch]) = 10 * digitsToNat xs + digitVal ch := by
  unfold digitsToNat
  rw [List.foldl_append]
  rfl

theorem digitsToNat_natToDigits (n : Nat) : digitsToNat (natToDigits n) = n := by
  induction n using Nat.strong_induction_on with
  | _ n ih =>
    rw [natToDigits]
    split_ifs with h
    · show digitsToNat [digitChar n] = n
      unfold digitsToNat
      simp [List.foldl, digitVal_digitChar n h]
    · rw [digitsToNat_append, ih (n / 10) (Nat.div_lt_self (by omega) (by omega)),
        digitVal_digitChar _ (Nat.mod_lt _ (by omega))]
      omega

theorem jsParseInt_digits (l : List Char) (hne : l ≠ [])
    (hd : ∀ ch ∈ l, ch.isDigit = true)
    (hw : ∀ ch ∈ l, ch.isWhitespace = false)
    (hsign : l.headD ' ' ≠ '-' ∧ l.headD ' ' ≠ '+') :
    jsParseInt (String.mk l) = some (digitsToNat l : ℤ) := by
  simp only [jsParseInt]
  rw [jsTrim_eq_self_of_nows l hw, toList_mk]
  rcases l with _ | ⟨a, t⟩
  · exact absurd rfl hne
  · have ha1 : a ≠ '-' := by simpa using hsign.1
    have ha2 : a ≠ '+' := by simpa using hsign.2
    simp only [List.headD_cons]
    have hT : (if a = '-' ∨ a = '+' then List.drop 1 (a :: t) else a :: t) = a :: t :=
      if_neg (by simp [ha1, ha2])
    rw [hT, List.takeWhile_eq_self_iff.mpr hd]
    rw [if_neg (by simp)]
    simp [ha1]

theorem jsParseInt_neg_digits (m : Nat) :
    jsParseInt (String.mk ('-' :: natToDigits m)) = some (-(m : ℤ)) := by
  simp only [jsParseInt]
  have hnows : ∀ ch ∈ ('-' :: natToDigits m), ch.isWhitespace = false := by
    intro ch hch
    rcases List.mem_cons.mp hch with rfl | h1
    · decide
    · exact (natToDigits_mem _ ch h1).2.1
  rw [jsTrim_eq_self_of_nows _ hnows, toList_mk]
  have htw : List.takeWhile Char.isDigit (natToDigits m) = natToDigits m :=
    List.takeWhile_eq_self_iff.mpr (fun ch hch => (natToDigits_mem _ ch hch).1)
  simp [List.headD_cons, htw, natToDigits_ne_nil, digitsToNat_natToDigits]

theorem jsParseInt_jsNumToString (x : Option ℤ) :
    jsParseInt (jsNumToString x) = x := by
  rcases x with _ | i
  · decide
  · simp only [jsNumToString]
    split_ifs with hneg
    · rw [jsParseInt_neg_digits]
      simp only [Option.some.injEq]
      omega
    · rw [jsParseInt_digits (natToDigits i.natAbs) (natToDigits_ne_nil _)
        (fun ch hch => (natToDigits_mem _ ch hch).1)
        (fun ch hch => (natToDigits_mem _ ch hch).2.1) ?hs]
      · simp only [digitsToNat_natToDigits, Option.some.injEq]
        omega
      case hs =>
        rcases hnn : natToDigits i.natAbs with _ | ⟨a, t⟩
        · exact absurd hnn (natToDigits_ne_nil _)
        · have hmem := natToDigits_mem i.natAbs a (by rw [hnn]; simp)
          exact ⟨by simp [hmem.2.2.2.2.1], by simp [hmem.2.2.2.2.2.1]⟩

theorem jsRemoveFirst_append_char (v : List Char) (c : Char) (hv : c ∉ v) :
    jsRemoveFirst (String.mk (v ++ [c])) c = String.mk v := by
  unfold jsRemoveFirst
  rw [toList_mk]
  have hsplit : (v ++ [c]).splitOn c = [v, []] := by
    have hi := List.splitOn_intercalate [v, []] c
      (by
        intro l hl
        rcases List.mem_cons.mp hl with rfl | hl2
        · exact hv
        · rcases List.mem_cons.mp hl2 with rfl | hl3
          · simp
          · simp at hl3)
      (by simp)
    have : [c].intercalate [v, []] = v ++ [c] := by
      rw [intercalate_cons_two]
      simp [List.intercalate]
    rw [this] at hi
    exact hi
  rw [hsplit]
  simp [List.intercalate]

/-- Syntactic safety of a Reading under CSV round-trip: its fields contain
none of the separator characters consumed by the importer.  Readings
finalized by the averager satisfy all of this (4-decimal numeric strings,
the units milliohm/ohm, an ISO timestamp); a free-text cellType label can
violate it. -/
structure ExportSafe (r : Reading) : Prop where
  cellTypeComma : ',' ∉ r.cellType.toList
  cellTypeNl : '\n' ∉ r.cellType.toList
  voltageV : 'V' ∉ r.voltage.toList
  voltageComma : ',' ∉ r.voltage.toList
  voltageNl : '\n' ∉ r.voltage.toList
  resistanceNe : r.resistance ≠ ""
  resistanceNoWs : ∀ ch ∈ r.resistance.toList, ch.isWhitespace = false
  resistanceComma : ',' ∉ r.resistance.toList
  resistanceNl : '\n' ∉ r.resistance.toList
  rUnitNe : r.rUnit ≠ ""
  rUnitNoWs : ∀ ch ∈ r.rUnit.toList, ch.isWhitespace = false
  rUnitComma : ',' ∉ r.rUnit.toList
  rUnitNl : '\n' ∉ r.rUnit.toList
  timestampComma : ',' ∉ r.timestamp.toList
  timestampNl : '\n' ∉ r.timestamp.toList

/-- How one reading comes back from its own CSV row: everything survives
except that an empty cellType label was exported as "N/A". -/
def normalizeReading (r : Reading) : Reading :=
  { r with cellType := if r.cellType = "" then "N/A" else r.cellType }

theorem toList_append (s t : String) : (s ++ t).toList = s.toList ++ t.toList :=
  String.data_append s t

theorem jsNumToString_chars (x : Option ℤ) :
    ∀ ch ∈ (jsNumToString x).toList, ch ≠ ',' ∧ ch ≠ '\n' := by
  rcases x with _ | i
  · decide
  · simp only [jsNumToString]
    split_ifs with hneg
    · intro ch hch
      rw [toList_mk] at hch
      rcases List.mem_cons.mp hch with rfl | h1
      · exact ⟨by decide, by decide⟩
      · have h := natToDigits_mem _ ch h1
        exact ⟨h.2.2.1, h.2.2.2.1⟩
    · intro ch hch
      rw [toList_mk] at hch
      have h := natToDigits_mem _ ch hch
      exact ⟨h.2.2.1, h.2.2.2.1⟩

theorem csvRow_fields_comma_free (r : Reading) (hs : ExportSafe r) :
    ∀ p ∈ csvRow r, ',' ∉ p.toList := by
  intro p hp
  simp only [csvRow, List.mem_cons, List.not_mem_nil, or_false] at hp
  rcases hp with rfl | rfl | rfl | rfl | rfl
  · intro hmem
    exact absurd rfl (jsNumToString_chars r.cellNum ',' hmem).1
  · split_ifs with hty
    · decide
    · exact hs.cellTypeComma
  · rw [toList_append]
    intro hmem
    rcases List.mem_append.mp hmem with h1 | h1
    · exact hs.voltageComma h1
    · simp at h1
  · rw [toList_append, toList_append]
    intro hmem
    rcases List.mem_append.mp hmem with h1 | h1
    · rcases List.mem_append.mp h1 with h2 | h2
      · exact hs.resistanceComma h2
      · simp at h2
    · exact hs.rUnitComma h1
  · exact hs.timestampComma

theorem csvRow_fields_nl_free (r : Reading) (hs : ExportSafe r) :
    ∀ p ∈ csvRow r, '\n' ∉ p.toList := by
  intro p hp
  simp only [csvRow, List.mem_cons, List.not_mem_nil, or_false] at hp
  rcases hp with rfl | rfl | rfl | rfl | rfl
  · intro hmem
    exact absurd rfl (jsNumToString_chars r.cellNum '\n' hmem).2
  · split_ifs with hty
    · decide
    · exact hs.cellTypeNl
  · rw [toList_append]
    intro hmem
    rcases List.mem_append.mp hmem with h1 | h1
    · exact hs.voltageNl h1
    · simp at h1
  · rw [toList_append, toList_append]
    intro hmem
    rcases List.mem_append.mp hmem with h1 | h1
    · rcases List.mem_append.mp h1 with h2 | h2
      · exact hs.resistanceNl h2
      · simp at h2
    · exact hs.rUnitNl h1
  · exact hs.timestampNl

theorem toList_eq_nil_iff (s : String) : s.toList = [] ↔ s = "" := by
  constructor
  · intro h
    have := congrArg String.mk h
    rwa [strMk_toList] at this
  · intro h
    rw [h]
    rfl

theorem acir_split (res ru : String)
    (hres : res ≠ "") (hresw : ∀ ch ∈ res.toList, ch.isWhitespace = false)
    (hru : ru ≠ "") (hruw : ∀ ch ∈ ru.toList, ch.isWhitespace = false) :
    jsSplit (jsTrim (res ++ " " ++ ru)) ' ' = [res, ru] := by
  rcases hres' : res.toList with _ | ⟨a, resTl⟩
  · exact absurd ((toList_eq_nil_iff res).mp hres') hres
  rcases List.eq_nil_or_concat ru.toList with hru' | ⟨ys, z, hru'⟩
  · exact absurd ((toList_eq_nil_iff ru).mp hru') hru
  rw [List.concat_eq_append] at hru'
  have hshape : (res ++ " " ++ ru).toList = a :: ((resTl ++ ' ' :: ys) ++ [z]) := by
    rw [toList_append, toList_append, hres', hru']
    simp
  have hstr : res ++ " " ++ ru = String.mk (a :: ((resTl ++ ' ' :: ys) ++ [z])) := by
    rw [← hshape, strMk_toList]
  have ha : a.isWhitespace = false := hresw a (by rw [hres']; simp)
  have hz : z.isWhitespace = false := hruw z (by rw [hru']; simp)
  rw [hstr, jsTrim_concat a z _ ha hz]
  unfold jsSplit
  rw [toList_mk]
  have hsp : (a :: ((resTl ++ ' ' :: ys) ++ [z])).splitOn ' ' =
      [res.toList, ru.toList] := by
    have hi := List.splitOn_intercalate [res.toList, ru.toList] ' '
      (by
        intro l hl hmem
        rcases List.mem_cons.mp hl with rfl | hl2
        · have := hresw ' ' hmem
          simp at this
        · rcases List.mem_cons.mp hl2 with rfl | hl3
          · have := hruw ' ' hmem
            simp at this
          · simp at hl3)
      (by simp)
    have heq : [' '].intercalate [res.toList, ru.toList] =
        a :: ((resTl ++ ' ' :: ys) ++ [z]) := by
      rw [intercalate_cons_two]
      simp only [List.intercalate]
      rw [hres', hru']
      simp
    rw [heq] at hi
    exact hi
  rw [hsp]
  simp [strMk_toList]

theorem parseCSVLine_csvRow (r : Reading) (hs : ExportSafe r) :
    parseCSVLine (jsJoin ',' (csvRow r)) = some (normalizeReading r) := by
  unfold parseCSVLine
  rw [jsSplit_jsJoin ',' (csvRow r) (by simp [csvRow])
    (csvRow_fields_comma_free r hs)]
  rw [if_pos (by simp [csvRow])]
  have h0 : (csvRow r).getD 0 "" = jsNumToString r.cellNum := rfl
  have h1 : (csvRow r).getD 1 "" = (if r.cellType = "" then "N/A" else r.cellType) := rfl
  have h2 : (csvRow r).getD 2 "" = r.voltage ++ "V" := rfl
  have h3 : (csvRow r).getD 3 "" = r.resistance ++ " " ++ r.rUnit := rfl
  have h4 : (csvRow r).getD 4 "" = r.timestamp := rfl
  rw [h0, h1, h2, h3, h4]
  rw [acir_split r.resistance r.rUnit hs.resistanceNe hs.resistanceNoWs
    hs.rUnitNe hs.rUnitNoWs]
  have hvolt : jsRemoveFirst (r.voltage ++ "V") 'V' = r.voltage := by
    have hv : r.voltage ++ "V" = String.mk (r.voltage.toList ++ ['V']) := by
      rw [← strMk_toList (r.voltage ++ "V")]
      congr 1
    rw [hv, jsRemoveFirst_append_char _ 'V' hs.voltageV, strMk_toList]
  rw [hvolt, jsParseInt_jsNumToString]
  simp only [List.getD_cons_zero, List.getD_cons_succ, hs.rUnitNe]
  rfl

/-- C6 (amended): for every non-empty log of finalized Readings whose
fields are free of the CSV separator characters (in particular whose
cellType labels contain no comma or newline — a free-text custom label can
violate this, see the counterexample), exporting to CSV and importing the
result yields a log with the same (cellNum, voltage, resistance, rUnit)
tuple in every row, in order. -/
theorem C6_csv_round_trip (rs : List Reading) (hne : rs ≠ [])
    (hsafe : ∀ r ∈ rs, ExportSafe r) :
    ∃ rs2 m, importFromCSV (exportToCSV rs) = some (rs2, m) ∧
      rs2.map (fun r => (r.cellNum, r.voltage, r.resistance, r.rUnit)) =
        rs.map (fun r => (r.cellNum, r.voltage, r.resistance, r.rUnit)) := by
  have hrowfree : ∀ r ∈ rs, '\n' ∉ (jsJoin ',' (csvRow r)).toList := by
    intro r hr hmem
    unfold jsJoin at hmem
    rw [toList_mk] at hmem
    rcases mem_intercalate_single ',' _ '\n' hmem with h1 | ⟨l, hl, hcl⟩
    · exact absurd h1 (by decide)
    · rcases List.mem_map.mp hl with ⟨p, hp, rfl⟩
      exact csvRow_fields_nl_free r (hsafe r hr) p hp hcl
  have hlines : jsSplit (exportToCSV rs) '\n' =
      jsJoin ',' ["Cell #", "Type", "Voltage", "ACIR", "Time"] ::
        rs.map (fun r => jsJoin ',' (csvRow r)) := by
    unfold exportToCSV
    refine jsSplit_jsJoin '\n' _ (by simp) ?_
    intro p hp
    rcases List.mem_cons.mp hp with rfl | hp2
    · decide
    · rcases List.mem_map.mp hp2 with ⟨r, hr, rfl⟩
      exact hrowfree r hr
  have hrowkeep : ∀ r ∈ rs, jsTrim (jsJoin ',' (csvRow r)) ≠ "" := by
    intro r hr
    have hcm : ',' ∈ (jsJoin ',' (csvRow r)).toList := by
      unfold jsJoin csvRow
      rw [toList_mk]
      rw [show (([jsNumToString r.cellNum,
            (if r.cellType = "" then "N/A" else r.cellType), r.voltage ++ "V",
            r.resistance ++ " " ++ r.rUnit, r.timestamp] : List String).map
            String.toList) =
          (jsNumToString r.cellNum).toList ::
            ((if r.cellType = "" then "N/A" else r.cellType)).toList ::
            [(r.voltage ++ "V").toList, (r.resistance ++ " " ++ r.rUnit).toList,
             r.timestamp.toList] from rfl]
      rw [intercalate_cons_two]
      simp
    have := jsTrim_ne_empty _ ',' hcm (by decide)
    rwa [strMk_toList] at this
  unfold importFromCSV
  rw [hlines]
  simp only [List.drop_succ_cons, List.drop_zero]
  rw [List.filter_eq_self.mpr ?keep]
  case keep =>
    intro a ha
    rcases List.mem_map.mp ha with ⟨r, hr, rfl⟩
    exact decide_eq_true (hrowkeep r hr)
  rw [if_neg (by simp [hne])]
  rw [List.filterMap_map]
  have hfm : ∀ (l : List Reading), (∀ r ∈ l, ExportSafe r) →
      l.filterMap (fun r => parseCSVLine (jsJoin ',' (csvRow r))) =
        l.map normalizeReading := by
    intro l hl
    induction l with
    | nil => rfl
    | cons a t ih =>
      rw [List.filterMap_cons]
      rw [parseCSVLine_csvRow a (hl a (by simp))]
      rw [List.map_cons, ih (fun r hr => hl r (by simp [hr]))]
  have hcomp : (parseCSVLine ∘ fun r => jsJoin ',' (csvRow r)) =
      (fun r => parseCSVLine (jsJoin ',' (csvRow r))) := rfl
  rw [hcomp, hfm rs hsafe]
  refine ⟨rs.map normalizeReading, _, rfl, ?_⟩
  rw [List.map_map]
  rfl

def badRow : Reading :=
  { cellNum := some 1, cellType := "a,b", voltage := "3.7000",
    resistance := "0.0100", rUnit := "mΩ", timestamp := "ts" }

set_option maxRecDepth 32768 in
theorem exportToCSV_badRow :
    exportToCSV [badRow] =
      "Cell #,Type,Voltage,ACIR,Time\n1,a,b,3.7000V,0.0100 mΩ,ts" := by
  have h1 : jsNumToString badRow.cellNum = "1" := by
    show jsNumToString (some 1) = "1"
    simp only [jsNumToString]
    rw [if_neg (by norm_num)]
    rw [show natToDigits (1 : ℤ).natAbs = ['1'] from by rw [natToDigits]; rfl]
  have hrow : csvRow badRow = ["1", "a,b", "3.7000V", "0.0100 mΩ", "ts"] := by
    unfold csvRow
    rw [h1]
    rfl
  unfold exportToCSV
  rw [List.map_cons, List.map_nil, hrow]
  rfl

set_option maxRecDepth 32768 in
theorem importFromCSV_badRow :
    importFromCSV "Cell #,Type,Voltage,ACIR,Time\n1,a,b,3.7000V,0.0100 mΩ,ts" =
      some ([{ cellNum := some 1, cellType := "a", voltage := "b",
               resistance := "3.7000V", rUnit := "mΩ",
               timestamp := "0.0100 mΩ" }], 2) := by
  decide

/-- C6 (counterexample): a finalized Reading whose cellType label contains
a comma does not round-trip — exporting and re-importing the one-row log
shifts the columns, so the recovered (voltage, resistance) tuple is
("b", "3.7000V") instead of ("3.7000", "0.0100"). -/
theorem C6_round_trip_counterexample :
    (importFromCSV (exportToCSV [badRow])).map
        (fun p => p.1.map (fun r => (r.cellNum, r.voltage, r.resistance, r.rUnit))) =
      some [(some 1, "b", "3.7000V", "mΩ")] ∧
    [badRow].map (fun r => (r.cellNum, r.voltage, r.resistance, r.rUnit)) =
      [(some 1, "3.7000", "0.0100", "mΩ")] ∧
    ([(some 1, "b", "3.7000V", "mΩ")] :
        List (Option ℤ × String × String × String)) ≠
      [(some 1, "3.7000", "0.0100", "mΩ")] := by
  refine ⟨?_, rfl, by decide⟩
  rw [exportToCSV_badRow, importFromCSV_badRow]
  rfl

/-! Concrete instantiations of the hypotheses-bearing theorems. -/

theorem C1_decoder_fields_witness :
    ([0x95, 0, 100, 0, 0, 0, 0, 50, 0, 0] : List Nat).length = 10 ∧
    (∀ x ∈ ([0x95, 0, 100, 0, 0, 0, 0, 50, 0, 0] : List Nat), x < 256) ∧
    processPacket [0x95, 0, 100, 0, 0, 0, 0, 50, 0, 0] =
      { voltage := Meas.num (-(50 / 10000 : ℚ)),
        resistance := Meas.num ((100 : ℚ) / 10000), rUnit := "Ω" } := by
  refine ⟨rfl, by decide, ?_⟩
  have h := C1_decoder_fields [0x95, 0, 100, 0, 0, 0, 0, 50, 0, 0] rfl (by decide)
  rw [h]
  norm_num [DecodedSample.mk.injEq]

def c2wSt : LoggerState :=
  updateReadings cfgTwo (cexAcc 9) 10000 (Meas.num (37 / 10)) (Meas.num (1 / 100)) "mΩ"

theorem C2_stability_run_witness :
    (cexAcc 9).waitingForProbeRemoval = false ∧
    (cexAcc 9).isReadingInProgress = true ∧
    (0 : ℚ) < 37 / 10 ∧
    (cexAcc 9).currentReadings.length < targetReadings cfgTwo ∧
    ((c2wSt.currentReadings = (cexAcc 9).currentReadings ∨
        c2wSt.currentReadings = (cexAcc 9).currentReadings ++ [⟨37 / 10, 1 / 100, "mΩ"⟩]) ∧
      (c2wSt.currentReadings = (cexAcc 9).currentReadings ++ [⟨37 / 10, 1 / 100, "mΩ"⟩] ↔
        StablePair (cexAcc 9) (37 / 10) (1 / 100) "mΩ" ∧ (cexAcc 9).stableCount = 9) ∧
      (¬ StablePair (cexAcc 9) (37 / 10) (1 / 100) "mΩ" →
        c2wSt.currentReadings = (cexAcc 9).currentReadings ∧ c2wSt.stableCount = 0) ∧
      c2wSt.prevVoltage = some (37 / 10) ∧ c2wSt.prevResistance = some (1 / 100) ∧
      c2wSt.prevRUnit = some "mΩ") :=
  ⟨rfl, rfl, by norm_num, by decide,
   C2_stability_run cfgTwo (cexAcc 9) 10000 (37 / 10) (1 / 100) "mΩ" c2wSt rfl rfl rfl
     (by norm_num) (by decide)⟩

def c3State : LoggerState :=
  { cexInit with currentReadings := [⟨37 / 10, 1 / 100, "mΩ"⟩, ⟨37 / 10, 1 / 100, "mΩ"⟩] }

theorem C3_averaging_correct_witness :
    c3State.currentReadings.length = targetReadings cfgTwo ∧
    0 < c3State.currentReadings.length ∧
    (∀ x ∈ c3State.readings, x.cellNum ≠ some c3State.cellNum) ∧
    (∃ rd, (completeCellEffect cfgTwo c3State "ts").readings = c3State.readings ++ [rd] ∧
      rd.voltage = toFixed4 ((c3State.currentReadings.map CurrentReading.voltage).sum /
        (c3State.currentReadings.length : ℚ)) ∧
      rd.resistance = toFixed4 ((c3State.currentReadings.map CurrentReading.resistance).sum /
        (c3State.currentReadings.length : ℚ)) ∧
      (∃ s ∈ c3State.currentReadings, rd.rUnit = s.rUnit) ∧
      (completeCellEffect cfgTwo c3State "ts").currentReadings = [] ∧
      (completeCellEffect cfgTwo c3State "ts").cellNum = c3State.cellNum + 1) :=
  ⟨rfl, by decide, by simp [c3State, cexInit],
   C3_averaging_correct cfgTwo c3State "ts" _ rfl rfl (by decide)
     (by simp [c3State, cexInit])⟩

def goodRow : Reading :=
  { cellNum := some 1, cellType := "T", voltage := "3.7000",
    resistance := "0.0100", rUnit := "mΩ", timestamp := "ts" }

theorem goodRow_safe : ∀ r ∈ [goodRow], ExportSafe r := by
  intro r hr
  rw [List.mem_singleton] at hr
  subst hr
  exact ⟨by decide, by decide, by decide, by decide, by decide, by decide, by decide,
    by decide, by decide, by decide, by decide, by decide, by decide, by decide,
    by decide⟩

theorem C6_csv_round_trip_witness :
    ([goodRow] ≠ ([] : List Reading)) ∧
    (∀ r ∈ [goodRow], ExportSafe r) ∧
    (∃ rs2 m, importFromCSV (exportToCSV [goodRow]) = some (rs2, m) ∧
      rs2.map (fun r => (r.cellNum, r.voltage, r.resistance, r.rUnit)) =
        [goodRow].map (fun r => (r.cellNum, r.voltage, r.resistance, r.rUnit))) :=
  ⟨by simp, goodRow_safe, C6_csv_round_trip [goodRow] (by simp) goodRow_safe⟩

theorem C7_append_duplicate_noop_witness :
    dupRow.cellNum = some 1 ∧
    some 1 ∈ [dupRow].map Reading.cellNum ∧
    appendReading [dupRow] dupRow = [dupRow] :=
  ⟨rfl, by decide, C7_append_duplicate_noop [dupRow] dupRow 1 rfl (by decide)⟩

def c8CSV : String := "Cell #,Type,Voltage,ACIR,Time\n3,T,1.0000V,0.0100 mΩ,ts"

def c8Row : Reading :=
  { cellNum := some 3, cellType := "T", voltage := "1.0000",
    resistance := "0.0100", rUnit := "mΩ", timestamp := "ts" }

set_option maxRecDepth 32768 in
theorem importFromCSV_c8CSV : importFromCSV c8CSV = some ([c8Row], 4) := by
  decide

theorem uniqueCells_dupRow_singleton : UniqueCells [dupRow] := by
  intro k
  by_cases h : (dupRow.cellNum == some k) = true <;> simp [List.filter, h]

theorem C8_log_invariant_operations_witness :
    UniqueCells [dupRow] ∧
    importFromCSV c8CSV = some ([c8Row], 4) ∧
    ([c8Row].filterMap Reading.cellNum).Nodup ∧
    (UniqueCells (appendReading [dupRow] dupRow) ∧
     UniqueCells (reloadCellReadings [dupRow] 1) ∧
     UniqueCells ([] : List Reading) ∧
     UniqueCells [c8Row]) :=
  ⟨uniqueCells_dupRow_singleton, importFromCSV_c8CSV, by decide,
   C8_log_invariant_operations [dupRow] dupRow 1 c8CSV [c8Row] 4
     uniqueCells_dupRow_singleton importFromCSV_c8CSV (by decide)⟩

theorem C9_cooldown_blocks_witness :
    cexMid.waitingForProbeRemoval = false ∧
    cexMid.isReadingInProgress = false ∧
    (0 : ℚ) < 37 / 10 ∧
    (12000 : ℤ) - cexMid.lastReadingTime < COOLDOWN_PERIOD ∧
    updateReadings cfgTwo cexMid 12000 (Meas.num (37 / 10)) (Meas.num (1 / 100)) "mΩ" =
      { cexMid with stabilityText := "Please wait before next reading..." } :=
  ⟨rfl, rfl, by norm_num, by decide,
   C9_cooldown_blocks cfgTwo cexMid 12000 (37 / 10) (1 / 100) "mΩ" _ rfl rfl rfl
     (by norm_num) (by decide)⟩

def cfgOne : Config := ⟨false, 3, "T", ""⟩

def c10State : LoggerState :=
  { cexInit with readings := [⟨some 1, "T", "3.7000", "0.0100", "mΩ", "t0"⟩],
                 currentReadings := [⟨37 / 10, 1 / 100, "mΩ"⟩] }

theorem C10_duplicate_completion_frame_witness :
    c10State.currentReadings.length = targetReadings cfgOne ∧
    0 < c10State.currentReadings.length ∧
    (∃ x ∈ c10State.readings, x.cellNum = some c10State.cellNum) ∧
    ((completeCellEffect cfgOne c10State "ts").readings = c10State.readings ∧
     (completeCellEffect cfgOne c10State "ts").cellNum = c10State.cellNum + 1 ∧
     (completeCellEffect cfgOne c10State "ts").currentReadings = [] ∧
     (completeCellEffect cfgOne c10State "ts").stabilityText =
       "Reading saved. Move probes to next cell." ∧
     (completeCellEffect cfgOne c10State "ts").waitingForProbeRemoval = true) := by
  have hdup : ∃ x ∈ c10State.readings, x.cellNum = some c10State.cellNum :=
    ⟨⟨some 1, "T", "3.7000", "0.0100", "mΩ", "t0"⟩, by simp [c10State, cexInit], rfl⟩
  exact ⟨rfl, by decide, hdup,
    C10_duplicate_completion_frame cfgOne c10State "ts" _ rfl rfl (by decide) hdup⟩

end BatteryLogger
